import Mathlib

/-!
# Verification of the LoanForecaster amortization and reconciliation engine

Shallow embedding of `src/loan_calculator.py` and `src/utils.py`.

Python's floating-point numbers are modelled by exact rationals (`ℚ`); the
transcendental projection in `analyze_payment_history` (which calls `np.log`)
is modelled over the reals (`ℝ`).  `round(x, 2)` is modelled by rounding
`x * 100` to the nearest integer (Python rounds the nearest representable
binary double, breaking exact ties to even; exact ties are immaterial to the
properties proved here).
-/

namespace LoanForecaster

/-- `LoanCalculator.__init__`: `monthly_rate = annual_rate / 100 / 12`. -/
def monthly_rate_of (annual_rate : ℚ) : ℚ := annual_rate / 100 / 12

/-- `LoanCalculator.__init__`: `tenure_months = tenure_years * 12`. -/
def tenure_months_of (tenure_years : ℕ) : ℕ := tenure_years * 12

/-- `LoanCalculator._calculate_emi` (loan_calculator.py lines 29-43). -/
def calculate_emi (loan_amount monthly_rate : ℚ) (tenure_months : ℕ) : ℚ :=
  if monthly_rate = 0 then loan_amount / tenure_months
  else
    loan_amount * monthly_rate * (1 + monthly_rate) ^ tenure_months /
      ((1 + monthly_rate) ^ tenure_months - 1)

/-- One emitted row of the amortization schedule (the dict appended at
loan_calculator.py lines 99-107); monetary fields carry the `round(_, 2)`
applied there. -/
structure PeriodRecord where
  Month : ℕ
  InterestPaid : ℚ
  PrincipalPaid : ℚ
  MonthlyPrepayment : ℚ
  QuarterlyPrepayment : ℚ
  TotalPayment : ℚ
  OutstandingBalance : ℚ
deriving DecidableEq, Repr, Inhabited

/-- `round(x, 2)`: round to 2 decimal places. -/
def round2 (x : ℚ) : ℚ := (round (x * 100) : ℤ) / 100

/-- The exact (pre-rounding) values computed by one iteration of the loop in
`generate_amortization_schedule` (loan_calculator.py lines 68-96). -/
structure StepOut where
  interest : ℚ
  principal : ℚ
  monthlyPrepayApplied : ℚ
  quarterlyPrepayApplied : ℚ
  totalPrepay : ℚ
  totalPayment : ℚ
  newBalance : ℚ
deriving DecidableEq, Repr

/-- One loop iteration of `generate_amortization_schedule` for month `month`
with entering balance `b` (loan_calculator.py lines 68-96):
interest, EMI principal split with the final-period clamp, prepayment
application with the room clamp (reassigning a clamped total entirely to the
monthly component), and the non-negative balance update. -/
def monthStep (r emi m q : ℚ) (month : ℕ) (b : ℚ) : StepOut :=
  let monthly_interest := b * r
  let monthly_principal := emi - monthly_interest
  let p1 := if monthly_principal > b then b else monthly_principal
  let i1 := if monthly_principal > b then emi - b else monthly_interest
  let q0 := if month % 3 = 0 then q else 0
  let t0 := m + q0
  let room := b - p1
  let t1 := if t0 > room then max 0 room else t0
  let m1 := if t0 > room then t1 else m
  let q1 := if t0 > room then 0 else q0
  let b1 := max 0 (b - (p1 + t1))
  { interest := i1, principal := p1, monthlyPrepayApplied := m1,
    quarterlyPrepayApplied := q1, totalPrepay := t1,
    totalPayment := i1 + p1 + t1, newBalance := b1 }

/-- The dict appended to the schedule (loan_calculator.py lines 99-107):
every monetary field is rounded to 2 decimals at emission. -/
def emitRecord (month : ℕ) (s : StepOut) : PeriodRecord :=
  { Month := month, InterestPaid := round2 s.interest,
    PrincipalPaid := round2 s.principal,
    MonthlyPrepayment := round2 s.monthlyPrepayApplied,
    QuarterlyPrepayment := round2 s.quarterlyPrepayApplied,
    TotalPayment := round2 s.totalPayment,
    OutstandingBalance := round2 s.newBalance }

/-- The loop of `generate_amortization_schedule` (loan_calculator.py lines
64-111): `fuel` months remain, `month` is the current 1-based month index.
The loop breaks before emitting when the balance is already `≤ 0` and after
emitting when the updated balance is `≤ 0`. -/
def genAux (r emi m q : ℚ) : ℕ → ℕ → ℚ → List PeriodRecord
  | 0, _, _ => []
  | fuel + 1, month, b =>
    if b ≤ 0 then []
    else if (monthStep r emi m q month b).newBalance ≤ 0 then
      [emitRecord month (monthStep r emi m q month b)]
    else
      emitRecord month (monthStep r emi m q month b) ::
        genAux r emi m q fuel (month + 1) (monthStep r emi m q month b).newBalance

/-- `LoanCalculator.generate_amortization_schedule` (loan_calculator.py lines
45-113) with an explicit horizon (`max_months`; the Python default fills in
`tenure_months`). -/
def generate_amortization_schedule (loan_amount r emi m q : ℚ)
    (max_months : ℕ) : List PeriodRecord :=
  genAux r emi m q max_months 1 loan_amount

/-- `Outstanding Balance` of the last emitted record (0 for an empty
schedule). -/
def lastBalance (l : List PeriodRecord) : ℚ :=
  (l.getLast?.map PeriodRecord.OutstandingBalance).getD 0

/-! ## The exact balance trajectory

With non-negative prepayments, one loop iteration updates the outstanding
balance exactly as `b ↦ max 0 (b·(1+r) − emi − p)` with `p` the configured
prepayment of the month; all of the length and termination arguments go
through this closed-form recurrence. -/

/-- Total configured prepayment of a month (quarterly applies on months
divisible by 3, loan_calculator.py line 81). -/
def prepayAt (m q : ℚ) (month : ℕ) : ℚ := m + if month % 3 = 0 then q else 0

/-- Closed form of the balance update performed by one loop iteration. -/
def nextBalance (r emi m q : ℚ) (month : ℕ) (b : ℚ) : ℚ :=
  max 0 (b * (1 + r) - emi - prepayAt m q month)

/-- Balance before period `month₀ + k` when the simulation enters period
`month₀` with balance `b`. -/
def traj (r emi m q : ℚ) (month₀ : ℕ) (b : ℚ) : ℕ → ℚ
  | 0 => b
  | k + 1 => nextBalance r emi m q (month₀ + k) (traj r emi m q month₀ b k)

theorem prepayAt_nonneg {m q : ℚ} (hm : 0 ≤ m) (hq : 0 ≤ q) (month : ℕ) :
    0 ≤ prepayAt m q month := by
  unfold prepayAt
  split <;> simp [hm, hq, add_nonneg]

/-- The step's exact balance update coincides with the closed-form recurrence
(for non-negative prepayments). -/
theorem monthStep_newBalance (r emi : ℚ) {m q : ℚ} (hm : 0 ≤ m) (hq : 0 ≤ q)
    (month : ℕ) (b : ℚ) :
    (monthStep r emi m q month b).newBalance = nextBalance r emi m q month b := by
  have hq0 : (0:ℚ) ≤ if month % 3 = 0 then q else 0 := by
    split <;> simp [hq]
  unfold monthStep nextBalance prepayAt
  by_cases hclamp : emi - b * r > b
  · -- final-period clamp: principal := b, so room = 0 and the new balance is 0
    have hneg : b * (1 + r) - emi - (m + if month % 3 = 0 then q else 0) < 0 := by
      have : b * (1 + r) - emi < 0 := by nlinarith
      have := add_nonneg hm hq0
      linarith
    by_cases hpre : m + (if month % 3 = 0 then q else 0) > b - b
    · simp only [hclamp, if_true, hpre]
      simp [max_eq_left, le_of_lt hneg, le_refl]
    · have hble : m + (if month % 3 = 0 then q else 0) = 0 := by
        have := add_nonneg hm hq0
        have hle : m + (if month % 3 = 0 then q else 0) ≤ 0 := by
          simpa using not_lt.mp hpre
        linarith
      simp only [hclamp, if_true, hpre, if_false]
      rw [hble]
      simp only [hble, add_zero] at hneg
      simp [max_eq_left, le_of_lt hneg]
      linarith
  · -- no principal clamp: room = b·(1+r) − emi ≥ 0
    have hroom : 0 ≤ b * (1 + r) - emi := by nlinarith [not_lt.mp hclamp]
    by_cases hpre : m + (if month % 3 = 0 then q else 0) > b - (emi - b * r)
    · simp only [hclamp, if_false, hpre, if_true]
      have h1 : b - (emi - b * r) = b * (1 + r) - emi := by ring
      rw [h1, max_eq_right hroom]
      have h2 : b - (emi - b * r + (b * (1 + r) - emi)) = 0 - 0 := by ring
      have h3 : b * (1 + r) - emi - (m + if month % 3 = 0 then q else 0) < 0 := by
        have := hpre
        rw [h1] at this
        linarith
      rw [h2]
      simp [max_eq_left, le_of_lt h3]
    · simp only [hclamp, if_false, hpre]
      congr 1
      ring
end LoanForecaster

namespace LoanForecaster

/-- Unfolding a trajectory from the front. -/
theorem traj_shift (r emi m q : ℚ) (month₀ : ℕ) (b : ℚ) (k : ℕ) :
    traj r emi m q month₀ b (k + 1) =
      traj r emi m q (month₀ + 1) (nextBalance r emi m q month₀ b) k := by
  induction k with
  | zero => simp [traj]
  | succ k ih =>
    show nextBalance r emi m q (month₀ + (k + 1)) (traj r emi m q month₀ b (k + 1)) = _
    rw [ih]
    show _ = nextBalance r emi m q (month₀ + 1 + k) _
    congr 1
    omega

/-- The loop never emits more records than it has months of fuel. -/
theorem genAux_length_le_fuel (r emi m q : ℚ) (fuel month : ℕ) (b : ℚ) :
    (genAux r emi m q fuel month b).length ≤ fuel := by
  induction fuel generalizing month b with
  | zero => simp [genAux]
  | succ fuel ih =>
    rw [genAux]
    split_ifs
    · simp
    · simp
    · simpa using Nat.succ_le_succ (ih (month + 1) _)

/-- If the exact trajectory is exhausted (`≤ 0`) after `j` steps, at most `j`
records are emitted. -/
theorem genAux_length_le_of_traj {r emi m q : ℚ} (hm : 0 ≤ m) (hq : 0 ≤ q)
    (fuel : ℕ) {month j : ℕ} {b : ℚ}
    (hj : traj r emi m q month b j ≤ 0) :
    (genAux r emi m q fuel month b).length ≤ j := by
  induction fuel generalizing month b j with
  | zero => simp [genAux]
  | succ fuel ih =>
    rw [genAux]
    split_ifs with h0 h1
    · simp
    · cases j with
      | zero => simp [traj] at hj; exact absurd hj h0
      | succ j => simp
    · cases j with
      | zero => simp [traj] at hj; exact absurd hj h0
      | succ j =>
        rw [traj_shift, ← monthStep_newBalance r emi hm hq month b] at hj
        simpa using Nat.succ_le_succ (ih hj)

/-- If the exact trajectory is still positive before each of the first `j`
periods, at least `j` records are emitted (given enough fuel). -/
theorem genAux_length_ge {r emi m q : ℚ} (hm : 0 ≤ m) (hq : 0 ≤ q)
    {fuel month j : ℕ} {b : ℚ}
    (hj : ∀ i < j, 0 < traj r emi m q month b i) (hfuel : j ≤ fuel) :
    j ≤ (genAux r emi m q fuel month b).length := by
  induction fuel generalizing month b j with
  | zero => omega
  | succ fuel ih =>
    cases j with
    | zero => simp
    | succ j =>
      have hb : 0 < b := by simpa [traj] using hj 0 (Nat.succ_pos j)
      have heq := monthStep_newBalance r emi hm hq month b
      rw [genAux, if_neg (not_le.mpr hb)]
      split_ifs with h1
      · cases j with
        | zero => simp
        | succ j' =>
          exfalso
          have h2 := hj 1 (by omega)
          simp only [traj, Nat.add_zero] at h2
          rw [heq] at h1
          linarith
      · have hj' : ∀ i < j,
            0 < traj r emi m q (month + 1) (monthStep r emi m q month b).newBalance i := by
          intro i hi
          rw [heq, ← traj_shift]
          exact hj (i + 1) (by omega)
        simpa using Nat.succ_le_succ (ih hj' (by omega))

/-- A positive entering balance and positive fuel always emit a record. -/
theorem genAux_ne_nil {r emi m q : ℚ} {fuel month : ℕ} {b : ℚ}
    (hfuel : 0 < fuel) (hb : 0 < b) : genAux r emi m q fuel month b ≠ [] := by
  cases fuel with
  | zero => omega
  | succ fuel =>
    rw [genAux, if_neg (not_le.mpr hb)]
    split_ifs <;> simp

/-- The `Outstanding Balance` field of the last emitted record is the rounded
exact trajectory value after `length` steps. -/
theorem genAux_lastBalance {r emi m q : ℚ} (hm : 0 ≤ m) (hq : 0 ≤ q)
    {fuel month : ℕ} {b : ℚ} (hb : 0 < b) (hfuel : 0 < fuel) :
    lastBalance (genAux r emi m q fuel month b)
      = round2 (traj r emi m q month b (genAux r emi m q fuel month b).length) := by
  induction fuel generalizing month b with
  | zero => omega
  | succ fuel ih =>
    have heq := monthStep_newBalance r emi hm hq month b
    rw [genAux, if_neg (not_le.mpr hb)]
    split_ifs with h1
    · simp [lastBalance, emitRecord, traj, heq]
    · rcases Nat.eq_zero_or_pos fuel with hf0 | hfpos
      · subst hf0
        simp [genAux, lastBalance, emitRecord, traj, heq]
      · have hbpos : 0 < (monthStep r emi m q month b).newBalance := lt_of_not_le h1
        have hne := @genAux_ne_nil r emi m q fuel (month + 1)
          (monthStep r emi m q month b).newBalance hfpos hbpos
        obtain ⟨y, t, hyt⟩ := List.exists_cons_of_ne_nil hne
        have hlast : lastBalance (emitRecord month (monthStep r emi m q month b)
            :: genAux r emi m q fuel (month + 1) (monthStep r emi m q month b).newBalance)
            = lastBalance (genAux r emi m q fuel (month + 1)
                (monthStep r emi m q month b).newBalance) := by
          rw [hyt]
          simp [lastBalance]
        rw [hlast, ih hbpos hfpos]
        rw [List.length_cons, traj_shift, heq]

/-! ## Closed form of the zero-prepayment trajectory under the computed EMI -/

/-- With zero prepayments the recurrence loses its prepayment term. -/
theorem nextBalance_no_prepay (r emi : ℚ) (month : ℕ) (b : ℚ) :
    nextBalance r emi 0 0 month b = max 0 (b * (1 + r) - emi) := by
  unfold nextBalance prepayAt
  simp

/-- Zero rate: after `k` of `n` months the balance is `P·(n − k)/n`. -/
theorem traj_no_prepay_rate_zero (P : ℚ) (n : ℕ) (hP : 0 < P) (hn : 1 ≤ n)
    (month₀ : ℕ) {k : ℕ} (hk : k ≤ n) :
    traj 0 (calculate_emi P 0 n) 0 0 month₀ P k = P * ((n : ℚ) - k) / n := by
  have hnQ : (0 : ℚ) < n := by exact_mod_cast (by omega : 0 < n)
  have hn0 : (n : ℚ) ≠ 0 := ne_of_gt hnQ
  have hemi0 : calculate_emi P 0 n = P / n := by simp [calculate_emi]
  induction k with
  | zero =>
    simp only [traj, Nat.cast_zero, sub_zero]
    field_simp
  | succ k ih =>
    have hk' : k ≤ n := by omega
    have hcast : (k : ℚ) + 1 ≤ (n : ℚ) := by exact_mod_cast hk
    rw [traj, ih hk', nextBalance_no_prepay, hemi0]
    have hval : P * ((n : ℚ) - k) / n * (1 + 0) - P / n
        = P * ((n : ℚ) - ((k : ℚ) + 1)) / n := by
      field_simp
      ring
    rw [hval, max_eq_right]
    · push_cast
      ring
    · apply div_nonneg _ (le_of_lt hnQ)
      nlinarith

/-- Positive rate: after `k ≤ n` months the balance is
`P·((1+r)^n − (1+r)^k)/((1+r)^n − 1)`. -/
theorem traj_no_prepay_rate_pos (P r : ℚ) (n : ℕ) (hP : 0 < P) (hr : 0 < r)
    (hn : 1 ≤ n) (month₀ : ℕ) {k : ℕ} (hk : k ≤ n) :
    traj r (calculate_emi P r n) 0 0 month₀ P k
      = P * ((1 + r) ^ n - (1 + r) ^ k) / ((1 + r) ^ n - 1) := by
  have h1r : (1 : ℚ) < 1 + r := by linarith
  have hD : (0 : ℚ) < (1 + r) ^ n - 1 := by
    have := one_lt_pow₀ h1r (by omega : n ≠ 0)
    linarith
  have hDne : ((1 + r) ^ n - 1 : ℚ) ≠ 0 := ne_of_gt hD
  have hemi : calculate_emi P r n
      = P * r * (1 + r) ^ n / ((1 + r) ^ n - 1) := by
    simp [calculate_emi, ne_of_gt hr]
  induction k with
  | zero =>
    simp only [traj, pow_zero]
    field_simp
  | succ k ih =>
    have hk' : k ≤ n := by omega
    have hpowle : (1 + r) ^ (k + 1) ≤ (1 + r) ^ n :=
      pow_le_pow_right₀ (le_of_lt h1r) hk
    rw [traj, ih hk', nextBalance_no_prepay, hemi]
    have hval : P * ((1 + r) ^ n - (1 + r) ^ k) / ((1 + r) ^ n - 1) * (1 + r)
        - P * r * (1 + r) ^ n / ((1 + r) ^ n - 1)
        = P * ((1 + r) ^ n - (1 + r) ^ (k + 1)) / ((1 + r) ^ n - 1) := by
      field_simp
      ring
    rw [hval, max_eq_right]
    apply div_nonneg _ (le_of_lt hD)
    have h0 : (0:ℚ) ≤ (1 + r) ^ n - (1 + r) ^ (k + 1) := by linarith
    positivity

/-- With the EMI computed by `_calculate_emi` and no prepayments, the exact
balance is zero after exactly `tenure_months` periods and positive before. -/
theorem traj_no_prepay_payoff (P r : ℚ) (n : ℕ) (hP : 0 < P) (hr : 0 ≤ r)
    (hn : 1 ≤ n) (month₀ : ℕ) :
    traj r (calculate_emi P r n) 0 0 month₀ P n = 0 ∧
    ∀ k < n, 0 < traj r (calculate_emi P r n) 0 0 month₀ P k := by
  rcases eq_or_lt_of_le hr with hr0 | hrpos
  · subst hr0
    constructor
    · rw [traj_no_prepay_rate_zero P n hP hn month₀ le_rfl]
      simp
    · intro k hk
      rw [traj_no_prepay_rate_zero P n hP hn month₀ (le_of_lt hk)]
      have hkn : (k : ℚ) < (n : ℚ) := by exact_mod_cast hk
      have hnpos : (0:ℚ) < n := by positivity
      apply div_pos _ hnpos
      nlinarith
  · have h1r : (1 : ℚ) < 1 + r := by linarith
    have hD : (0 : ℚ) < (1 + r) ^ n - 1 := by
      have := one_lt_pow₀ h1r (by omega : n ≠ 0)
      linarith
    constructor
    · rw [traj_no_prepay_rate_pos P r n hP hrpos hn month₀ le_rfl]
      simp
    · intro k hk
      rw [traj_no_prepay_rate_pos P r n hP hrpos hn month₀ (le_of_lt hk)]
      apply div_pos _ hD
      have hlt : (1 + r) ^ k < (1 + r) ^ n := pow_lt_pow_right₀ h1r hk
      nlinarith

/-! ## Monotonicity in the prepayment policy -/

theorem nextBalance_mono {r emi m1 q1 m2 q2 : ℚ} (hr : 0 ≤ r)
    (hm : m1 ≤ m2) (hq : q1 ≤ q2) {b2 b1 : ℚ} (hb : b2 ≤ b1) (month : ℕ) :
    nextBalance r emi m2 q2 month b2 ≤ nextBalance r emi m1 q1 month b1 := by
  unfold nextBalance prepayAt
  apply max_le_max le_rfl
  have h1 : b2 * (1 + r) ≤ b1 * (1 + r) := by nlinarith
  split <;> linarith

theorem traj_mono {r emi m1 q1 m2 q2 : ℚ} (hr : 0 ≤ r) (hm : m1 ≤ m2)
    (hq : q1 ≤ q2) (b : ℚ) (month₀ : ℕ) (k : ℕ) :
    traj r emi m2 q2 month₀ b k ≤ traj r emi m1 q1 month₀ b k := by
  induction k with
  | zero => exact le_rfl
  | succ k ih => exact nextBalance_mono hr hm hq ih _

/-- A componentwise-larger (non-negative) prepayment policy never lengthens
the emitted schedule. -/
theorem genAux_length_anti {r emi m1 q1 m2 q2 : ℚ} (hr : 0 ≤ r)
    (hm1 : 0 ≤ m1) (hq1 : 0 ≤ q1) (hm : m1 ≤ m2) (hq : q1 ≤ q2)
    (fuel : ℕ) {month : ℕ} {b2 b1 : ℚ} (hb : b2 ≤ b1) :
    (genAux r emi m2 q2 fuel month b2).length
      ≤ (genAux r emi m1 q1 fuel month b1).length := by
  have hm2 : 0 ≤ m2 := hm1.trans hm
  have hq2 : 0 ≤ q2 := hq1.trans hq
  induction fuel generalizing month b1 b2 with
  | zero => simp [genAux]
  | succ fuel ih =>
    by_cases h2 : b2 ≤ 0
    · simp [genAux, h2]
    · have hb1 : ¬ b1 ≤ 0 := fun h => h2 (hb.trans h)
      have hnb : (monthStep r emi m2 q2 month b2).newBalance
          ≤ (monthStep r emi m1 q1 month b1).newBalance := by
        rw [monthStep_newBalance r emi hm2 hq2, monthStep_newBalance r emi hm1 hq1]
        exact nextBalance_mono hr hm hq hb month
      rw [genAux, genAux, if_neg h2, if_neg hb1]
      by_cases hn1 : (monthStep r emi m1 q1 month b1).newBalance ≤ 0
      · have hn2 : (monthStep r emi m2 q2 month b2).newBalance ≤ 0 := hnb.trans hn1
        simp [hn1, hn2]
      · by_cases hn2 : (monthStep r emi m2 q2 month b2).newBalance ≤ 0
        · simp only [hn1, hn2, if_true, if_false, List.length_cons,
            List.length_singleton]
          simp
        · simp only [hn1, hn2, if_false, List.length_cons]
          exact Nat.succ_le_succ (ih hnb)

/-! ## Non-negativity and monotonicity of the emitted records -/

theorem round2_nonneg {x : ℚ} (hx : 0 ≤ x) : 0 ≤ round2 x := by
  unfold round2
  have h : (0 : ℤ) ≤ round (x * 100) := by
    rw [round_eq]
    rw [Int.le_floor]
    push_cast
    linarith
  positivity

theorem round2_mono {x y : ℚ} (h : x ≤ y) : round2 x ≤ round2 y := by
  unfold round2
  have h2 : round (x * 100) ≤ round (y * 100) := by
    rw [round_eq, round_eq]
    exact Int.floor_mono (by linarith)
  have h3 : ((round (x * 100) : ℤ) : ℚ) ≤ ((round (y * 100) : ℤ) : ℚ) := by
    exact_mod_cast h2
  linarith

/-- In a step entered with `0 ≤ b` and `b·r ≤ emi` (the computed EMI always
dominates the interest, see `emi_ge_rate_mul_principal`), every exact field
is non-negative and the balance does not increase. -/
theorem monthStep_nonneg {r emi m q : ℚ} (hr : 0 ≤ r) (hm : 0 ≤ m) (hq : 0 ≤ q)
    {b : ℚ} (hb : 0 ≤ b) (hemi : b * r ≤ emi) (month : ℕ) :
    0 ≤ (monthStep r emi m q month b).interest ∧
    0 ≤ (monthStep r emi m q month b).principal ∧
    0 ≤ (monthStep r emi m q month b).monthlyPrepayApplied ∧
    0 ≤ (monthStep r emi m q month b).quarterlyPrepayApplied ∧
    0 ≤ (monthStep r emi m q month b).totalPrepay ∧
    0 ≤ (monthStep r emi m q month b).totalPayment ∧
    0 ≤ (monthStep r emi m q month b).newBalance ∧
    (monthStep r emi m q month b).newBalance ≤ b := by
  have hq0 : (0:ℚ) ≤ if month % 3 = 0 then q else 0 := by split <;> simp [hq]
  have hbr : 0 ≤ b * r := mul_nonneg hb hr
  unfold monthStep
  by_cases hclamp : emi - b * r > b
  · by_cases hpre : m + (if month % 3 = 0 then q else 0) > b - b
    · simp only [hclamp, if_true, hpre]
      refine ⟨by linarith, hb, ?_, le_rfl, ?_, ?_, ?_, ?_⟩
      · simp
      · simp
      · have : (0:ℚ) ⊔ (b - b) = 0 := by simp
        rw [this]
        linarith
      · simp [le_max_iff]
      · simp [max_le_iff, hb]
    · simp only [hclamp, if_true, hpre, if_false]
      have hz : m + (if month % 3 = 0 then q else 0) = 0 := by
        have h1 := add_nonneg hm hq0
        have h2 : m + (if month % 3 = 0 then q else 0) ≤ 0 := by
          simpa using not_lt.mp hpre
        linarith
      refine ⟨by linarith, hb, hm, hq0, by linarith, by linarith, ?_, ?_⟩
      · simp [le_max_iff]
      · rw [hz]
        simp [max_le_iff, hb]
  · have hple : emi - b * r ≤ b := not_lt.mp hclamp
    have hp0 : 0 ≤ emi - b * r := by linarith
    by_cases hpre : m + (if month % 3 = 0 then q else 0) > b - (emi - b * r)
    · simp only [hclamp, if_false, hpre, if_true]
      have hroom : 0 ≤ b - (emi - b * r) := by linarith
      rw [max_eq_right hroom]
      refine ⟨hbr, hp0, hroom, le_rfl, hroom, by linarith, ?_, ?_⟩
      · simp [le_max_iff]
      · simp only [max_le_iff]
        constructor
        · exact hb
        · linarith
    · simp only [hclamp, if_false, hpre]
      have ht0 : 0 ≤ m + (if month % 3 = 0 then q else 0) := add_nonneg hm hq0
      refine ⟨hbr, hp0, hm, hq0, ht0, by linarith, ?_, ?_⟩
      · simp [le_max_iff]
      · simp only [max_le_iff]
        constructor
        · exact hb
        · linarith

/-- The EMI produced by `_calculate_emi` dominates one month's interest on
the full principal. -/
theorem emi_ge_rate_mul_principal (P r : ℚ) (n : ℕ) (hP : 0 < P) (hr : 0 ≤ r)
    (hn : 1 ≤ n) : P * r ≤ calculate_emi P r n := by
  rcases eq_or_lt_of_le hr with hr0 | hrpos
  · subst hr0
    have hnQ : (0 : ℚ) < n := by exact_mod_cast (by omega : 0 < n)
    simp [calculate_emi]
    positivity
  · have h1r : (1 : ℚ) < 1 + r := by linarith
    have hD : (0 : ℚ) < (1 + r) ^ n - 1 := by
      have := one_lt_pow₀ h1r (by omega : n ≠ 0)
      linarith
    rw [calculate_emi, if_neg (ne_of_gt hrpos)]
    rw [le_div_iff₀ hD]
    nlinarith [pow_pos (lt_trans zero_lt_one h1r) n]

/-- Every record emitted under non-negative inputs with an interest-dominating
EMI has only non-negative monetary fields. -/
theorem genAux_records_nonneg {r emi m q : ℚ} (hr : 0 ≤ r) (hm : 0 ≤ m)
    (hq : 0 ≤ q) {fuel month : ℕ} {b : ℚ} (hb : 0 ≤ b) (hemi : b * r ≤ emi) :
    ∀ rec ∈ genAux r emi m q fuel month b,
      0 ≤ rec.InterestPaid ∧ 0 ≤ rec.PrincipalPaid ∧
      0 ≤ rec.MonthlyPrepayment ∧ 0 ≤ rec.QuarterlyPrepayment ∧
      0 ≤ rec.TotalPayment ∧ 0 ≤ rec.OutstandingBalance := by
  induction fuel generalizing month b with
  | zero => simp [genAux]
  | succ fuel ih =>
    intro rec hrec
    rw [genAux] at hrec
    split_ifs at hrec with h0 h1
    · simp at hrec
    · simp only [List.mem_singleton] at hrec
      subst hrec
      obtain ⟨hi, hp, hmm, hqq, ht, htp, hnb, _⟩ :=
        monthStep_nonneg hr hm hq hb hemi month
      exact ⟨round2_nonneg hi, round2_nonneg hp, round2_nonneg hmm,
        round2_nonneg hqq, round2_nonneg htp, round2_nonneg hnb⟩
    · rcases List.mem_cons.mp hrec with hrec | hrec
      · subst hrec
        obtain ⟨hi, hp, hmm, hqq, ht, htp, hnb, _⟩ :=
          monthStep_nonneg hr hm hq hb hemi month
        exact ⟨round2_nonneg hi, round2_nonneg hp, round2_nonneg hmm,
          round2_nonneg hqq, round2_nonneg htp, round2_nonneg hnb⟩
      · obtain ⟨_, _, _, _, _, _, hnb, hle⟩ :=
          monthStep_nonneg hr hm hq hb hemi month
        have hemi' : (monthStep r emi m q month b).newBalance * r ≤ emi :=
          le_trans (mul_le_mul_of_nonneg_right hle hr) hemi
        exact ih hnb hemi' rec hrec

/-- The `Outstanding Balance` field never increases from one record to the
next. -/
theorem genAux_balance_chain {r emi m q : ℚ} (hr : 0 ≤ r) (hm : 0 ≤ m)
    (hq : 0 ≤ q) {fuel month : ℕ} {b : ℚ} (hb : 0 ≤ b) (hemi : b * r ≤ emi) :
    (genAux r emi m q fuel month b).Chain'
      (fun a c => c.OutstandingBalance ≤ a.OutstandingBalance) ∧
    ∀ x ∈ (genAux r emi m q fuel month b).head?,
      x.OutstandingBalance ≤ round2 b := by
  induction fuel generalizing month b with
  | zero => simp [genAux]
  | succ fuel ih =>
    rw [genAux]
    split_ifs with h0 h1
    · simp
    · obtain ⟨_, _, _, _, _, _, hnb, hle⟩ :=
        monthStep_nonneg hr hm hq hb hemi month
      constructor
      · simp
      · intro x hx
        simp only [List.head?_cons, Option.mem_some_iff] at hx
        subst hx
        exact round2_mono hle
    · obtain ⟨_, _, _, _, _, _, hnb, hle⟩ :=
        monthStep_nonneg hr hm hq hb hemi month
      have hemi' : (monthStep r emi m q month b).newBalance * r ≤ emi :=
        le_trans (mul_le_mul_of_nonneg_right hle hr) hemi
      obtain ⟨ihchain, ihhead⟩ := ih hnb hemi'
      constructor
      · rw [List.chain'_cons']
        refine ⟨?_, ihchain⟩
        intro y hy
        exact le_trans (ihhead y hy) le_rfl
      · intro x hx
        simp only [List.head?_cons, Option.mem_some_iff] at hx
        subst hx
        exact round2_mono hle

/-- The exact balance update subtracts exactly the principal and the two
applied prepayment portions, clamped at 0 (loan_calculator.py lines 92-93;
the total prepayment always equals the monthly plus quarterly portions
applied, including after the room clamp). -/
theorem monthStep_balance_invariant (r emi m q : ℚ) (month : ℕ) (b : ℚ) :
    (monthStep r emi m q month b).newBalance
      = max 0 (b - (monthStep r emi m q month b).principal
          - (monthStep r emi m q month b).monthlyPrepayApplied
          - (monthStep r emi m q month b).quarterlyPrepayApplied) := by
  unfold monthStep
  dsimp only
  split_ifs <;> (congr 1; ring)

/-- C3 (amended) -- under valid loan terms and non-negative prepayments every
monetary field of every emitted record is ≥ 0 and the outstanding balance is
non-increasing across the sequence; the balance recurrence
`new = max 0 (previous − principal − monthlyPrepay − quarterlyPrepay)` holds
exactly for the pre-rounding values of every step (the rounded emitted fields
satisfy it only up to rounding, see
`schedule_invariant_rounding_counterexample`). -/
theorem schedule_records_invariant (P r m q : ℚ) (n horizon : ℕ)
    (hP : 0 < P) (hr : 0 ≤ r) (hn : 1 ≤ n) (hm : 0 ≤ m) (hq : 0 ≤ q) :
    (∀ rec ∈ generate_amortization_schedule P r (calculate_emi P r n) m q horizon,
       0 ≤ rec.InterestPaid ∧ 0 ≤ rec.PrincipalPaid ∧
       0 ≤ rec.MonthlyPrepayment ∧ 0 ≤ rec.QuarterlyPrepayment ∧
       0 ≤ rec.TotalPayment ∧ 0 ≤ rec.OutstandingBalance) ∧
    (generate_amortization_schedule P r (calculate_emi P r n) m q horizon).Chain'
      (fun a c => c.OutstandingBalance ≤ a.OutstandingBalance) ∧
    (∀ (month : ℕ) (b : ℚ),
       (monthStep r (calculate_emi P r n) m q month b).newBalance
         = max 0 (b - (monthStep r (calculate_emi P r n) m q month b).principal
             - (monthStep r (calculate_emi P r n) m q month b).monthlyPrepayApplied
             - (monthStep r (calculate_emi P r n) m q month b).quarterlyPrepayApplied)) := by
  have hemi : P * r ≤ calculate_emi P r n :=
    emi_ge_rate_mul_principal P r n hP hr hn
  refine ⟨?_, ?_, fun month b => monthStep_balance_invariant _ _ _ _ _ _⟩
  · exact genAux_records_nonneg hr hm hq (le_of_lt hP) hemi
  · exact (genAux_balance_chain hr hm hq (le_of_lt hP) hemi).1

theorem schedule_records_invariant_witness :
    (generate_amortization_schedule 1200 0 (calculate_emi 1200 0 12)
        50 70 12).Chain'
      (fun a c => c.OutstandingBalance ≤ a.OutstandingBalance) :=
  (schedule_records_invariant 1200 0 50 70 12 12 (by norm_num) le_rfl
    (by norm_num) (by norm_num) (by norm_num)).2.1

/-- C3 (counterexample) -- the balance recurrence stated on the rounded
emitted fields fails: with principal 1200, zero rate, tenure 12 and
prepayments of 1/250 (0.004, each rounding to 0.00 in the records), the
month-3 record shows balance 899.98 while the month-2 record's balance minus
the month-3 principal and prepayment fields gives 899.99. -/
theorem schedule_invariant_rounding_counterexample :
    ¬ (((generate_amortization_schedule 1200 0 (calculate_emi 1200 0 12)
          (1/250) (1/250) 12).getD 2 default).OutstandingBalance
        = max 0
          (((generate_amortization_schedule 1200 0 (calculate_emi 1200 0 12)
              (1/250) (1/250) 12).getD 1 default).OutstandingBalance
            - ((generate_amortization_schedule 1200 0 (calculate_emi 1200 0 12)
                (1/250) (1/250) 12).getD 2 default).PrincipalPaid
            - ((generate_amortization_schedule 1200 0 (calculate_emi 1200 0 12)
                (1/250) (1/250) 12).getD 2 default).MonthlyPrepayment
            - ((generate_amortization_schedule 1200 0 (calculate_emi 1200 0 12)
                (1/250) (1/250) 12).getD 2 default).QuarterlyPrepayment)) := by
  norm_num [generate_amortization_schedule, genAux, monthStep, emitRecord,
    round2, calculate_emi, round_eq]

/-- C2 -- the schedule never exceeds the horizon; under a valid EMI and
non-negative prepayments a horizon of at least the tenure yields at most
`tenureMonths` records; and with zero prepayments and horizon = tenure the
last record's outstanding balance is within 0.01 of 0 and the length is
`tenureMonths` up to ±1. -/
theorem schedule_length_contract :
    (∀ (P r emi m q : ℚ) (horizon : ℕ),
      (generate_amortization_schedule P r emi m q horizon).length ≤ horizon) ∧
    (∀ (P r m q : ℚ) (n horizon : ℕ), 0 < P → 0 ≤ r → 1 ≤ n → 0 ≤ m → 0 ≤ q →
      n ≤ horizon →
      (generate_amortization_schedule P r (calculate_emi P r n) m q horizon).length
        ≤ n) ∧
    (∀ (P r : ℚ) (n : ℕ), 0 < P → 0 ≤ r → 1 ≤ n →
      |lastBalance (generate_amortization_schedule P r (calculate_emi P r n) 0 0 n)|
          ≤ 1 / 100 ∧
      n - 1 ≤ (generate_amortization_schedule P r (calculate_emi P r n) 0 0 n).length ∧
      (generate_amortization_schedule P r (calculate_emi P r n) 0 0 n).length
        ≤ n + 1) := by
  refine ⟨?_, ?_, ?_⟩
  · intro P r emi m q horizon
    exact genAux_length_le_fuel r emi m q horizon 1 P
  · intro P r m q n horizon hP hr hn hm hq hhz
    have hzero := (traj_no_prepay_payoff P r n hP hr hn 1).1
    have hle : traj r (calculate_emi P r n) m q 1 P n ≤ 0 := by
      calc traj r (calculate_emi P r n) m q 1 P n
          ≤ traj r (calculate_emi P r n) 0 0 1 P n := traj_mono hr hm hq P 1 n
        _ = 0 := hzero
    exact genAux_length_le_of_traj hm hq horizon hle
  · intro P r n hP hr hn
    obtain ⟨hzero, hpos⟩ := traj_no_prepay_payoff P r n hP hr hn 1
    have hlen_le : (generate_amortization_schedule P r (calculate_emi P r n) 0 0 n).length
        ≤ n :=
      genAux_length_le_of_traj le_rfl le_rfl n (le_of_eq hzero)
    have hlen_ge : n
        ≤ (generate_amortization_schedule P r (calculate_emi P r n) 0 0 n).length :=
      genAux_length_ge le_rfl le_rfl hpos le_rfl
    have hlen : (generate_amortization_schedule P r (calculate_emi P r n) 0 0 n).length
        = n := le_antisymm hlen_le hlen_ge
    refine ⟨?_, by omega, by omega⟩
    have hlast := @genAux_lastBalance r (calculate_emi P r n) 0 0
      le_rfl le_rfl n 1 P hP (by omega : 0 < n)
    rw [generate_amortization_schedule] at hlen ⊢
    rw [hlast, hlen, hzero]
    simp [round2]

theorem schedule_length_contract_witness :
    (generate_amortization_schedule 1200 0 (calculate_emi 1200 0 12) 50 70 12).length
        ≤ 12 ∧
    |lastBalance (generate_amortization_schedule 1200 0 (calculate_emi 1200 0 12)
        0 0 12)| ≤ 1 / 100 :=
  ⟨schedule_length_contract.2.1 1200 0 50 70 12 12 (by norm_num) le_rfl
      (by norm_num) (by norm_num) (by norm_num) le_rfl,
    (schedule_length_contract.2.2 1200 0 12 (by norm_num) le_rfl (by norm_num)).1⟩

/-- C4 -- for prepayment policies P1 ≤ P2 componentwise (both non-negative),
the schedule under P2 is never longer than the schedule under P1, for the
same loan terms and horizon. -/
theorem schedule_length_antitone_in_prepay (P r emi m1 q1 m2 q2 : ℚ)
    (horizon : ℕ) (hr : 0 ≤ r) (hm1 : 0 ≤ m1) (hq1 : 0 ≤ q1)
    (hm : m1 ≤ m2) (hq : q1 ≤ q2) :
    (generate_amortization_schedule P r emi m2 q2 horizon).length
      ≤ (generate_amortization_schedule P r emi m1 q1 horizon).length :=
  genAux_length_anti hr hm1 hq1 hm hq horizon le_rfl

theorem schedule_length_antitone_in_prepay_witness :
    (generate_amortization_schedule 1200 0 100 100 50 12).length
      ≤ (generate_amortization_schedule 1200 0 100 0 0 12).length :=
  schedule_length_antitone_in_prepay 1200 0 100 0 0 100 50 12 le_rfl le_rfl
    le_rfl (by norm_num) (by norm_num)

/-- C1 -- `_calculate_emi` returns `principal / tenureMonths` when the monthly
rate is zero (exactly), and otherwise `P·r·(1+r)^n / ((1+r)^n − 1)`, for every
positive principal and tenure of at least one month. -/
theorem emi_formula_correct (P r : ℚ) (n : ℕ) (_hP : 0 < P) (_hn : 1 ≤ n) :
    (r = 0 → calculate_emi P r n = P / n) ∧
    (r ≠ 0 → calculate_emi P r n = P * r * (1 + r) ^ n / ((1 + r) ^ n - 1)) := by
  constructor
  · intro h0
    simp [calculate_emi, h0]
  · intro hne
    simp [calculate_emi, hne]

theorem emi_formula_correct_witness :
    0 < (1200 : ℚ) ∧ 1 ≤ 12 ∧ calculate_emi 1200 0 12 = 1200 / 12 :=
  ⟨by norm_num, by norm_num,
    (emi_formula_correct 1200 0 12 (by norm_num) (by norm_num)).1 rfl⟩

/-! ## PaymentReconciler: `utils.py`

`validate_payment_data`, the replay loop of `analyze_payment_history`, and
`generate_payment_recommendations`. -/

/-- Abstraction of the uploaded payment-history DataFrame: the column names
present, and the cell contents of the two required columns (`none` models a
missing value / NaN; pandas `duplicated` treats NaN values as equal, which
`none = none` mirrors). -/
structure PaymentDF where
  columns : List String
  amount_paid : List (Option ℚ)
  month : List (Option ℚ)

/-- The negative-amount test of `validate_payment_data` (pandas `lt(0)`,
in which a NaN cell compares false). -/
def negAmount (v : Option ℚ) : Bool :=
  match v with
  | some x => decide (x < 0)
  | none => false

/-- `validate_payment_data` (utils.py lines 270-305): the required-columns
check, then — only when both required columns are present — the negative
amount, duplicate month, and missing value checks, in source order. -/
def validate_payment_data (df : PaymentDF) : List String :=
  let missing_columns :=
    (["amount_paid", "month"]).filter (fun col => !(df.columns.contains col))
  let errors : List String :=
    if missing_columns.isEmpty then []
    else ["Missing required columns: " ++ String.intercalate ", " missing_columns]
  if errors.isEmpty then
    ((if df.amount_paid.any negAmount
        then ["Payment amounts cannot be negative"] else [])
      ++ (if df.month.Nodup then [] else ["Duplicate months found in the data"])
      ++ (if df.amount_paid.any (fun v => v.isNone)
          then ["Missing payment amounts found"] else [])
      ++ (if df.month.any (fun v => v.isNone)
          then ["Missing month values found"] else []))
  else errors

/-- One row of the reconciliation output (utils.py lines 359-369). -/
structure ReconRecord where
  month : ℚ
  amount_paid : ℚ
  expected_emi : ℚ
  expected_interest : ℚ
  expected_principal : ℚ
  actual_interest : ℚ
  actual_principal : ℚ
  overpayment : ℚ
  remaining_balance : ℚ
deriving DecidableEq, Repr

/-- One iteration of the replay loop of `analyze_payment_history`
(utils.py lines 334-369): expected interest on the running balance, the
interest-first split of the actual payment, the overpayment beyond the EMI,
and the clamped balance update. -/
def reconStep (r emi balance mo amt : ℚ) : ReconRecord :=
  let expected_interest := balance * r
  let expected_principal := emi - expected_interest
  let actual_interest := min amt expected_interest
  let actual_principal := amt - actual_interest
  let overpayment := max 0 (amt - emi)
  let new_balance := max 0 (balance - actual_principal)
  { month := mo, amount_paid := amt, expected_emi := emi,
    expected_interest := expected_interest,
    expected_principal := expected_principal,
    actual_interest := actual_interest,
    actual_principal := actual_principal,
    overpayment := overpayment, remaining_balance := new_balance }

/-- The replay loop of `analyze_payment_history` over `(month, amount_paid)`
rows.  The Python sorts the rows by month before the loop; the theorems below
quantify over every row order, which covers the sorted order. -/
def replay (r emi : ℚ) : ℚ → List (ℚ × ℚ) → List ReconRecord
  | _, [] => []
  | balance, (mo, amt) :: rest =>
    reconStep r emi balance mo amt ::
      replay r emi (reconStep r emi balance mo amt).remaining_balance rest

/-- The placeholder payment-consistency computation of
`generate_payment_recommendations` (utils.py lines 455-456): the length of
the comprehension selecting each month of `range(1, months_completed + 1)`
whose value appears in a list comprehended from the empty list — i.e. a
membership test against the empty list. -/
def payment_consistency (months_completed : ℕ) : ℕ :=
  ((List.range' 1 months_completed).filter
    (fun month => decide (month ∈ ([] : List ℕ)))).length

/-- The average-overpayment computation of `generate_payment_recommendations`
(utils.py line 433), the one division in the reconciliation path that IS
guarded: `total_overpayment / months_completed if months_completed > 0
else 0`. -/
def avg_overpayment (total_overpayment : ℚ) (months_completed : ℕ) : ℚ :=
  if 0 < months_completed then total_overpayment / months_completed else 0

/-- `generate_payment_recommendations` (utils.py lines 410-460).  The
messages keep the stable ASCII text of the source strings; the emoji prefixes
and interpolated numbers of the f-strings are display-only and omitted. -/
def generate_payment_recommendations (remaining_balance remaining_months
    emi total_overpayment : ℚ) (months_completed : ℕ) : List String :=
  if remaining_balance ≤ 0 then
    ["Congratulations! Your loan is fully paid off!"]
  else
    (if 0 < avg_overpayment total_overpayment months_completed then
      ["You have been making overpayments"]
        ++ (if emi * (1/10) < avg_overpayment total_overpayment months_completed
            then ["Continue your current strategy to save more months"] else [])
    else
      ["Consider making small overpayments to reduce interest and loan duration"])
    ++ (if emi * 60 < remaining_balance then
          ["Focus on consistent overpayments"]
        else if emi * 24 < remaining_balance then
          ["You are in the home stretch! Consider larger prepayments to finish strong"]
        else
          ["Final sprint! Consider paying off the remaining balance in lump sum if possible"])
    ++ (if 6 ≤ months_completed then
          (if ((payment_consistency months_completed : ℚ)) < 4/5 then
            ["Try to maintain consistent monthly payments for better loan management"]
          else [])
        else [])

/-- C8 -- `validate_payment_data` returns an empty list exactly when none of
the listed defects is present; a table missing the `amount_paid` column (with
`month` present) yields exactly one error naming that column; a duplicate
month value yields the duplicates error; negative amounts, missing amounts
and missing month values are flagged; and whenever a required column is
missing, the per-row checks are skipped and the single missing-columns
message is the entire result. -/
theorem validate_payment_data_spec :
    (∀ df : PaymentDF, validate_payment_data df = [] ↔
      ("amount_paid" ∈ df.columns ∧ "month" ∈ df.columns ∧
        df.amount_paid.any negAmount = false ∧
        df.month.Nodup ∧
        df.amount_paid.any (fun v => v.isNone) = false ∧
        df.month.any (fun v => v.isNone) = false)) ∧
    (∀ df : PaymentDF, "amount_paid" ∉ df.columns → "month" ∈ df.columns →
      validate_payment_data df = ["Missing required columns: amount_paid"]) ∧
    (∀ df : PaymentDF, "amount_paid" ∈ df.columns → "month" ∈ df.columns →
      ¬ df.month.Nodup →
      "Duplicate months found in the data" ∈ validate_payment_data df) ∧
    (∀ df : PaymentDF, "amount_paid" ∈ df.columns → "month" ∈ df.columns →
      (df.amount_paid.any negAmount = true →
        "Payment amounts cannot be negative" ∈ validate_payment_data df) ∧
      (df.amount_paid.any (fun v => v.isNone) = true →
        "Missing payment amounts found" ∈ validate_payment_data df) ∧
      (df.month.any (fun v => v.isNone) = true →
        "Missing month values found" ∈ validate_payment_data df)) ∧
    (∀ df : PaymentDF, ("amount_paid" ∉ df.columns ∨ "month" ∉ df.columns) →
      ∃ s, validate_payment_data df = [s]) := by
  have hva : ∀ df : PaymentDF, "amount_paid" ∈ df.columns →
      "month" ∈ df.columns →
      validate_payment_data df =
        ((if df.amount_paid.any negAmount
            then ["Payment amounts cannot be negative"] else [])
          ++ (if df.month.Nodup then [] else ["Duplicate months found in the data"])
          ++ (if df.amount_paid.any (fun v => v.isNone)
              then ["Missing payment amounts found"] else [])
          ++ (if df.month.any (fun v => v.isNone)
              then ["Missing month values found"] else [])) := by
    intro df hA hM
    have hA' : df.columns.contains "amount_paid" = true := List.elem_iff.mpr hA
    have hM' : df.columns.contains "month" = true := List.elem_iff.mpr hM
    unfold validate_payment_data
    simp only [List.filter_cons, List.filter_nil, hA', hM', Bool.not_true,
      Bool.false_eq_true, if_false, List.isEmpty_nil, if_true]
  have key : ∀ df : PaymentDF,
      (["amount_paid", "month"]).filter
        (fun col => !(df.columns.contains col)) ≠ [] →
      validate_payment_data df =
        ["Missing required columns: " ++ String.intercalate ", "
          ((["amount_paid", "month"]).filter
            (fun col => !(df.columns.contains col)))] := by
    intro df hne
    have h1 : ((["amount_paid", "month"]).filter
        (fun col => !(df.columns.contains col))).isEmpty = false := by
      rw [List.isEmpty_eq_false]
      exact hne
    unfold validate_payment_data
    simp only [h1, Bool.false_eq_true, if_false, List.isEmpty_cons]
  refine ⟨?_, ?_, ?_, ?_, ?_⟩
  · intro df
    by_cases hA : "amount_paid" ∈ df.columns
    · by_cases hM : "month" ∈ df.columns
      · rw [hva df hA hM]
        by_cases h1 : df.amount_paid.any negAmount = true <;>
          by_cases h2 : df.month.Nodup <;>
          by_cases h3 : df.amount_paid.any (fun v => v.isNone) = true <;>
          by_cases h4 : df.month.any (fun v => v.isNone) = true <;>
          simp [h1, h2, h3, h4, hA, hM]
      · rw [key df (by simp [List.filter_cons, hA, hM])]
        simp [hM]
    · rw [key df (by simp [List.filter_cons, hA])]
      simp [hA]
  · intro df hA hM
    rw [key df (by simp [List.filter_cons, hA])]
    have hfil : (["amount_paid", "month"]).filter
        (fun col => !(df.columns.contains col)) = ["amount_paid"] := by
      simp [List.filter_cons, hA, hM]
    rw [hfil]
    rfl
  · intro df hA hM hdup
    rw [hva df hA hM]
    apply List.mem_append_left
    apply List.mem_append_left
    apply List.mem_append_right
    rw [if_neg hdup]
    simp
  · intro df hA hM
    refine ⟨?_, ?_, ?_⟩ <;> intro h <;> rw [hva df hA hM]
    · apply List.mem_append_left
      apply List.mem_append_left
      apply List.mem_append_left
      simp [h]
    · apply List.mem_append_left
      apply List.mem_append_right
      simp [h]
    · apply List.mem_append_right
      simp [h]
  · intro df hmiss
    rcases hmiss with hA | hM
    · rw [key df (by simp [List.filter_cons, hA])]
      exact ⟨_, rfl⟩
    · rw [key df (by
        by_cases hA : "amount_paid" ∈ df.columns <;> simp [List.filter_cons, hA, hM])]
      exact ⟨_, rfl⟩

theorem validate_payment_data_spec_witness :
    validate_payment_data ⟨["month"], [], [some 1]⟩
      = ["Missing required columns: amount_paid"] ∧
    "Duplicate months found in the data"
      ∈ validate_payment_data
          ⟨["amount_paid", "month"], [some 1, some 2], [some 1, some 1]⟩ :=
  ⟨validate_payment_data_spec.2.1 ⟨["month"], [], [some 1]⟩ (by simp) (by simp),
    validate_payment_data_spec.2.2.1
      ⟨["amount_paid", "month"], [some 1, some 2], [some 1, some 1]⟩
      (by simp) (by simp) (by simp)⟩

/-- C5 -- in every reconciliation record the actual interest is
`min(amountPaid, expectedInterest)`, the actual principal is the remainder,
and they sum back to `amountPaid` exactly; for a single payment smaller than
the expected interest the actual principal is 0 (not negative) and the
actual interest equals the amount paid. -/
theorem reconciliation_conservation (r emi b : ℚ) (payments : List (ℚ × ℚ)) :
    (∀ rec ∈ replay r emi b payments,
      rec.actual_interest = min rec.amount_paid rec.expected_interest ∧
      rec.actual_principal = rec.amount_paid - rec.actual_interest ∧
      rec.actual_interest + rec.actual_principal = rec.amount_paid) ∧
    (∀ mo amt : ℚ, amt < b * r →
      ∀ rec ∈ replay r emi b [(mo, amt)],
        rec.actual_principal = 0 ∧ rec.actual_interest = amt) := by
  constructor
  · induction payments generalizing b with
    | nil => simp [replay]
    | cons p rest ih =>
      obtain ⟨mo, amt⟩ := p
      intro rec hrec
      rw [replay] at hrec
      rcases List.mem_cons.mp hrec with h | h
      · subst h
        refine ⟨?_, ?_, ?_⟩ <;> simp [reconStep]
      · exact ih _ rec h
  · intro mo amt hlt rec hrec
    simp only [replay, List.mem_singleton] at hrec
    subst hrec
    have hmin : min amt (b * r) = amt := min_eq_left (le_of_lt hlt)
    constructor
    · simp [reconStep, hmin]
    · simp [reconStep, hmin]

theorem reconciliation_conservation_witness :
    (50 : ℚ) < 1000 * (1 / 10) ∧
    ∀ rec ∈ replay (1 / 10) 110 1000 [(1, 50)],
      rec.actual_principal = 0 ∧ rec.actual_interest = 50 :=
  ⟨by norm_num,
    (reconciliation_conservation (1 / 10) 110 1000 [(1, 50)]).2 1 50 (by norm_num)⟩

/-- C9 -- the placeholder payment-consistency computation always evaluates to
0 (it tests month membership against an empty list); consequently whenever
the remaining balance is positive and at least 6 months are completed, the
consistency recommendation is emitted regardless of which months appear in
the uploaded history. -/
theorem consistency_recommendation_always_fires :
    (∀ mc : ℕ, payment_consistency mc = 0) ∧
    (∀ (rb rm emi op : ℚ) (mc : ℕ), 0 < rb → 6 ≤ mc →
      "Try to maintain consistent monthly payments for better loan management"
        ∈ generate_payment_recommendations rb rm emi op mc) := by
  have hpc : ∀ mc : ℕ, payment_consistency mc = 0 := by
    intro mc
    simp [payment_consistency]
  refine ⟨hpc, ?_⟩
  intro rb rm emi op mc hrb hmc
  rw [generate_payment_recommendations, if_neg (not_le.mpr hrb)]
  apply List.mem_append_right
  rw [if_pos hmc, if_pos]
  · simp
  · rw [hpc]
    norm_num

theorem consistency_recommendation_always_fires_witness :
    (0:ℚ) < 1 ∧ 6 ≤ 6 ∧
    "Try to maintain consistent monthly payments for better loan management"
      ∈ generate_payment_recommendations 1 0 0 0 6 :=
  ⟨by norm_num, by norm_num,
    consistency_recommendation_always_fires.2 1 0 0 0 6 (by norm_num) (by norm_num)⟩

/-- C10 -- in every simulated period the exact (pre-rounding) interest and
principal portions sum to the EMI — including the clamped final period where
`principal := balance` and `interest := emi − balance` — so the exact total
payment of every period is the EMI plus the prepayments applied. -/
theorem interest_plus_principal_eq_emi (r emi m q : ℚ) (month : ℕ) (b : ℚ) :
    (monthStep r emi m q month b).interest +
      (monthStep r emi m q month b).principal = emi ∧
    (monthStep r emi m q month b).totalPayment =
      emi + (monthStep r emi m q month b).totalPrepay := by
  unfold monthStep
  by_cases h : emi - b * r > b <;> simp [h]

/-! ## The remaining-months projection (`analyze_payment_history`)

`np.log` is transcendental, so this part of the replay is modelled over `ℝ`.
`remaining_months` gives the value computed; `remaining_months?` makes the
divisions by `emi` explicit with `Option`, `none` being the
division-by-zero fault (ZeroDivisionError on the pure-`float` path, an
`inf`/`NaN` that poisons the result on the numpy path — either way not the
guarded 0/skip). -/

/-- Balance after `k` fixed-EMI payments with no prepayments, the
`b ↦ b·(1+r) − emi` amortization recurrence that the remaining-months
formula claims to invert. -/
def fixedEmiBalance (r emi : ℚ) (b : ℚ) : ℕ → ℚ
  | 0 => b
  | k + 1 => fixedEmiBalance r emi b k * (1 + r) - emi

noncomputable section

/-- The remaining-months projection of `analyze_payment_history`
(utils.py lines 376-382): `ceil(ln(1 + balance·rate/emi) / ln(1 + rate))`
when `monthly_rate > 0`, else `balance / emi`; clamped to `≥ 0`; 0 when the
balance is not positive. -/
def remaining_months (current_balance monthly_rate emi : ℝ) : ℝ :=
  if 0 < current_balance then
    max 0 (if 0 < monthly_rate then
      (⌈Real.log (1 + current_balance * monthly_rate / emi) /
        Real.log (1 + monthly_rate)⌉ : ℝ)
    else current_balance / emi)
  else 0

/-- Division with the fault made explicit: dividing by zero produces no
number. -/
def rdiv? (a b : ℝ) : Option ℝ := if b = 0 then none else some (a / b)

/-- `remaining_months` with its divisions by `emi` explicit (utils.py lines
376-382): `(current_balance * monthly_rate) / emi` in the positive-rate
branch and `current_balance / emi` in the other; neither is guarded. -/
def remaining_months? (current_balance monthly_rate emi : ℝ) : Option ℝ :=
  if 0 < current_balance then
    (if 0 < monthly_rate then
      (rdiv? (current_balance * monthly_rate) emi).map
        (fun x => max 0 (⌈Real.log (1 + x) / Real.log (1 + monthly_rate)⌉ : ℝ))
    else (rdiv? current_balance emi).map (fun x => max 0 x))
  else some 0

/-- `original_total_interest` (utils.py line 386):
`emi * (loan_amount / emi * (1 + monthly_rate) ** np.ceil(loan_amount / emi))
− loan_amount`, with the unguarded division `loan_amount / emi` explicit;
this line runs on every call, whatever the balance. -/
def original_total_interest? (loan_amount monthly_rate emi : ℝ) : Option ℝ :=
  (rdiv? loan_amount emi).map
    (fun x => emi * (x * (1 + monthly_rate) ^ (⌈x⌉ : ℤ)) - loan_amount)

end

/-- C6 (amended) -- when the replayed balance stays positive,
`remaining_months` equals `ceil(ln(1 + balance·rate/emi) / ln(1 + rate))` for
a positive monthly rate and `balance / emi` otherwise, clamped to `≥ 0` (and
it is 0 when the balance is not positive); for `0 < balance·rate < emi` this
coded value never exceeds — but can fall strictly short of — the exact
closed-form inversion `ceil(ln(emi / (emi − balance·rate)) / ln(1 + rate))`
of the fixed-EMI amortization recurrence. -/
theorem remaining_months_formula :
    (∀ b r emi : ℝ, b ≤ 0 → remaining_months b r emi = 0) ∧
    (∀ b r emi : ℝ, 0 < b → 0 < r →
      remaining_months b r emi
        = max 0 (⌈Real.log (1 + b * r / emi) / Real.log (1 + r)⌉ : ℝ)) ∧
    (∀ b r emi : ℝ, 0 < b → ¬ 0 < r →
      remaining_months b r emi = max 0 (b / emi)) ∧
    (∀ b r emi : ℝ, 0 < b → 0 < r → b * r < emi →
      (⌈Real.log (1 + b * r / emi) / Real.log (1 + r)⌉ : ℤ)
        ≤ ⌈Real.log (emi / (emi - b * r)) / Real.log (1 + r)⌉) := by
  refine ⟨?_, ?_, ?_, ?_⟩
  · intro b r emi hb
    rw [remaining_months, if_neg (not_lt.mpr hb)]
  · intro b r emi hb hr
    rw [remaining_months, if_pos hb, if_pos hr]
  · intro b r emi hb hr
    rw [remaining_months, if_pos hb, if_neg hr]
  · intro b r emi hb hr hlt
    have hbr : 0 < b * r := mul_pos hb hr
    have hemi : 0 < emi := lt_trans hbr hlt
    have hden : 0 < emi - b * r := by linarith
    have hL : 0 < Real.log (1 + r) := Real.log_pos (by linarith)
    have hx : (0:ℝ) < 1 + b * r / emi := by positivity
    have key : 1 + b * r / emi ≤ emi / (emi - b * r) := by
      rw [le_div_iff₀ hden]
      have h2 : (1 + b * r / emi) * (emi - b * r)
          = emi - (b * r) ^ 2 / emi := by
        field_simp
        ring
      rw [h2]
      have h3 : 0 ≤ (b * r) ^ 2 / emi := by positivity
      linarith
    have hlog : Real.log (1 + b * r / emi) ≤ Real.log (emi / (emi - b * r)) :=
      Real.log_le_log hx key
    apply Int.ceil_le_ceil
    exact div_le_div_of_nonneg_right hlog hL.le

theorem remaining_months_formula_witness :
    remaining_months (-1) (1/2) 60 = 0 ∧
    remaining_months 100 (1/2) 60
      = max 0 (⌈Real.log (1 + 100 * (1/2) / 60) / Real.log (1 + 1/2)⌉ : ℝ) ∧
    (⌈Real.log (1 + 100 * (1/2) / 60) / Real.log (1 + 1/2)⌉ : ℤ)
      ≤ ⌈Real.log (60 / (60 - 100 * (1/2))) / Real.log (1 + 1/2)⌉ :=
  ⟨remaining_months_formula.1 (-1) (1/2) 60 (by norm_num),
    remaining_months_formula.2.1 100 (1/2) 60 (by norm_num) (by norm_num),
    remaining_months_formula.2.2.2 100 (1/2) 60 (by norm_num) (by norm_num)
      (by norm_num)⟩

/-- C6 (counterexample) -- at balance 100, monthly rate 1/2, EMI 60 the coded
formula returns 2 remaining months, yet the fixed-EMI balance after 2
payments is still 75 > 0 (5 payments are in fact needed): the coded value is
not the closed-form number of fixed-EMI payments required to zero the
balance. -/
theorem remaining_months_not_payoff_count :
    remaining_months 100 (1/2) 60 = 2 ∧ fixedEmiBalance (1/2) 60 100 2 = 75 := by
  constructor
  · have h1 : (1:ℝ) + 100 * (1/2) / 60 = 11/6 := by norm_num
    have h2 : (1:ℝ) + 1/2 = 3/2 := by norm_num
    rw [remaining_months, if_pos (by norm_num : (0:ℝ) < 100),
      if_pos (by norm_num : (0:ℝ) < 1/2), h1, h2]
    have hL : 0 < Real.log (3/2 : ℝ) := Real.log_pos (by norm_num)
    have hceil : (⌈Real.log (11/6 : ℝ) / Real.log (3/2 : ℝ)⌉ : ℤ) = 2 := by
      rw [Int.ceil_eq_iff]
      constructor
      · push_cast
        rw [lt_div_iff₀ hL]
        have : (2:ℝ) - 1 = 1 := by norm_num
        rw [this, one_mul]
        exact Real.log_lt_log (by norm_num) (by norm_num)
      · push_cast
        rw [div_le_iff₀ hL]
        have hpow : (2:ℝ) * Real.log (3/2) = Real.log ((3/2 : ℝ) ^ (2:ℕ)) := by
          rw [Real.log_pow]
          push_cast
          ring
        rw [hpow]
        have h94 : ((3/2 : ℝ)) ^ (2:ℕ) = 9/4 := by norm_num
        rw [h94]
        exact Real.log_le_log (by norm_num) (by norm_num)
    rw [hceil]
    norm_num
  · norm_num [fixedEmiBalance]

/-- C7 -- the division-by-zero guard exists only for `months_completed`
(`avg_overpayment`); the divisions by `emi` in the remaining-months
projection and in `original_total_interest` are unguarded: with `emi = 0`
both fault instead of returning 0 or skipping. -/
theorem emi_division_unguarded :
    remaining_months? 1000 0 0 = none ∧
    original_total_interest? 1000 0 0 = none ∧
    (∀ op : ℚ, avg_overpayment op 0 = 0) := by
  refine ⟨?_, ?_, ?_⟩
  · rw [remaining_months?, if_pos (by norm_num : (0:ℝ) < 1000),
      if_neg (by norm_num : ¬ (0:ℝ) < 0)]
    rw [rdiv?, if_pos rfl]
    rfl
  · rw [original_total_interest?, rdiv?, if_pos rfl]
    rfl
  · intro op
    rw [avg_overpayment, if_neg (by norm_num)]

end LoanForecaster
